import Mathlib

/-!
Verification development for the go-quote historical-quote downloader
(`quote.go`).  Go strings are modelled as lists of characters (`GoStr`),
`float64` values as rationals, and `time.Time` values as calendar records at
second granularity.  Network access performed by the fetch routines is made
explicit: each fetcher takes the decoded response body as a parameter, and the
batch driver additionally produces the trace of requests and sleeps it issues.
-/

set_option maxRecDepth 20000
set_option linter.unusedVariables false

abbrev GoStr := List Char

def gs (s : String) : GoStr := s.toList

/-- Model of Go `strings.Split` with a one-character separator. -/
def splitChar (sep : Char) : GoStr → List GoStr
  | [] => [[]]
  | c :: rest =>
    if c = sep then [] :: splitChar sep rest
    else
      match splitChar sep rest with
      | [] => [[c]]
      | s :: ss => (c :: s) :: ss

theorem splitChar_ne_nil (sep : Char) (s : GoStr) : splitChar sep s ≠ [] := by
  cases s with
  | nil => simp [splitChar]
  | cons c rest =>
    simp only [splitChar]
    by_cases h : c = sep
    · simp [h]
    · simp only [if_neg h]
      cases hsp : splitChar sep rest with
      | nil => simp
      | cons s ss => simp

theorem splitChar_of_not_mem (sep : Char) (s : GoStr) (h : sep ∉ s) :
    splitChar sep s = [s] := by
  induction s with
  | nil => rfl
  | cons c rest ih =>
    have hc : c ≠ sep := fun hc => h (hc ▸ List.mem_cons_self c rest)
    have hrest : sep ∉ rest := fun hm => h (List.mem_cons_of_mem c hm)
    simp only [splitChar, if_neg hc, ih hrest]

theorem splitChar_append (sep : Char) (a b : GoStr) (h : sep ∉ a) :
    splitChar sep (a ++ sep :: b) = a :: splitChar sep b := by
  induction a with
  | nil => simp [splitChar]
  | cons c rest ih =>
    have hc : c ≠ sep := fun hc => h (hc ▸ List.mem_cons_self c rest)
    have hrest : sep ∉ rest := fun hm => h (List.mem_cons_of_mem c hm)
    simp only [List.cons_append, splitChar, if_neg hc]
    rw [show rest.append (sep :: b) = rest ++ sep :: b from rfl, ih hrest]

/-! ### Decimal numerals

`natToChars` renders a natural number the way Go's `fmt`/`strconv` render the
integral parts of `%d` and `%.*f` verbs; `parseNat` is the corresponding
digit-string reader used to model `strconv.ParseFloat` and `time.Parse`.
-/

def digitChar (n : Nat) : Char := Char.ofNat (48 + n)

def charVal (c : Char) : Nat := c.toNat - 48

def natToCharsAux : Nat → Nat → List Char
  | 0, _ => []
  | fuel + 1, n =>
    if n < 10 then [digitChar n]
    else natToCharsAux fuel (n / 10) ++ [digitChar (n % 10)]

def natToChars (n : Nat) : List Char := natToCharsAux (n + 1) n

def parseNat (s : GoStr) : Nat := s.foldl (fun a c => a * 10 + charVal c) 0

theorem charVal_digitChar : ∀ n < 10, charVal (digitChar n) = n := by decide

theorem isDigit_digitChar : ∀ n < 10, (digitChar n).isDigit = true := by decide

theorem parseNat_cons_general (a : Nat) (c : Char) (s : GoStr) :
    List.foldl (fun x d => x * 10 + charVal d) a (c :: s) =
      List.foldl (fun x d => x * 10 + charVal d) (a * 10 + charVal c) s := rfl

theorem parseNatAux_correct :
    ∀ fuel n, n < 10 ^ fuel → parseNat (natToCharsAux fuel n) = n := by
  intro fuel
  induction fuel with
  | zero =>
    intro n hn
    interval_cases n
    rfl
  | succ f ih =>
    intro n hn
    by_cases h10 : n < 10
    · simp [natToCharsAux, if_pos h10, parseNat, charVal_digitChar n h10]
    · have hdiv : n / 10 < 10 ^ f := by
        have : n < 10 ^ f * 10 := by
          calc n < 10 ^ (f + 1) := hn
          _ = 10 ^ f * 10 := by ring
        omega
      simp only [natToCharsAux, if_neg h10, parseNat, List.foldl_append]
      have hih := ih (n / 10) hdiv
      simp only [parseNat] at hih
      rw [hih]
      simp only [List.foldl]
      rw [charVal_digitChar (n % 10) (by omega)]
      omega

theorem lt_ten_pow_succ (n : Nat) : n < 10 ^ (n + 1) := by
  calc n < 10 ^ n := Nat.lt_pow_self (by norm_num) n
  _ ≤ 10 ^ (n + 1) := Nat.pow_le_pow_right (by norm_num) (Nat.le_succ n)

theorem parseNat_natToChars (n : Nat) : parseNat (natToChars n) = n :=
  parseNatAux_correct (n + 1) n (lt_ten_pow_succ n)

theorem natToCharsAux_all_digit :
    ∀ fuel n c, c ∈ natToCharsAux fuel n → c.isDigit = true := by
  intro fuel
  induction fuel with
  | zero => intro n c hc; simp [natToCharsAux] at hc
  | succ f ih =>
    intro n c hc
    by_cases h10 : n < 10
    · simp only [natToCharsAux, if_pos h10, List.mem_singleton] at hc
      rw [hc]; exact isDigit_digitChar n h10
    · simp only [natToCharsAux, if_neg h10, List.mem_append, List.mem_singleton] at hc
      rcases hc with hc | hc
      · exact ih _ _ hc
      · rw [hc]; exact isDigit_digitChar (n % 10) (by omega)

theorem natToChars_all_digit (n : Nat) : ∀ c ∈ natToChars n, c.isDigit = true :=
  fun c hc => natToCharsAux_all_digit (n + 1) n c hc

theorem natToChars_ne_nil (n : Nat) : natToChars n ≠ [] := by
  unfold natToChars natToCharsAux
  by_cases h10 : n < 10 <;> simp [h10]

theorem natToCharsAux_length_le :
    ∀ fuel n k, 0 < k → n < 10 ^ k → (natToCharsAux fuel n).length ≤ k := by
  intro fuel
  induction fuel with
  | zero => intro n k _ _; simp [natToCharsAux]
  | succ f ih =>
    intro n k hk hn
    by_cases h10 : n < 10
    · simp only [natToCharsAux, if_pos h10, List.length_singleton]
      omega
    · have hk2 : 2 ≤ k := by
        by_contra hlt
        have : k = 1 := by omega
        subst this
        simp at hn
        omega
      have hdiv : n / 10 < 10 ^ (k - 1) := by
        have h1 : n < 10 ^ (k - 1) * 10 := by
          have : 10 ^ k = 10 ^ (k - 1) * 10 := by
            have : k - 1 + 1 = k := by omega
            calc 10 ^ k = 10 ^ (k - 1 + 1) := by rw [this]
            _ = 10 ^ (k - 1) * 10 := by ring
          omega
        omega
      simp only [natToCharsAux, if_neg h10, List.length_append, List.length_singleton]
      have := ih (n / 10) (k - 1) (by omega) hdiv
      omega

theorem natToChars_length_le {n k : Nat} (hk : 0 < k) (hn : n < 10 ^ k) :
    (natToChars n).length ≤ k :=
  natToCharsAux_length_le (n + 1) n k hk hn

/-- Zero-padded fixed-width rendering, as produced by Go's `2006`/`01`/`02`/
`15`/`04` layout fields and by the fractional part of `%.*f`. -/
def padNat (w n : Nat) : GoStr :=
  List.replicate (w - (natToChars n).length) '0' ++ natToChars n

theorem padNat_length {w n : Nat} (hw : 0 < w) (hn : n < 10 ^ w) :
    (padNat w n).length = w := by
  have hle := natToChars_length_le hw hn
  simp [padNat, List.length_append, List.length_replicate]
  omega

theorem parseNat_replicate_zero (k : Nat) (s : GoStr) :
    parseNat (List.replicate k '0' ++ s) = parseNat s := by
  induction k with
  | zero => rfl
  | succ m ih =>
    simp only [List.replicate_succ, List.cons_append, parseNat, List.foldl]
    have : (0 : Nat) * 10 + charVal '0' = 0 := by decide
    rw [this]
    exact ih

theorem parseNat_padNat (w n : Nat) : parseNat (padNat w n) = n := by
  rw [padNat, parseNat_replicate_zero, parseNat_natToChars]

theorem padNat_all_digit (w n : Nat) : ∀ c ∈ padNat w n, c.isDigit = true := by
  intro c hc
  simp only [padNat, List.mem_append, List.mem_replicate] at hc
  rcases hc with ⟨_, hc⟩ | hc
  · rw [hc]; decide
  · exact natToChars_all_digit n c hc

/-! ### Fixed-point float formatting and parsing

`formatFixed p x` models the Go verb `%.*f` applied with precision `p`; the
binary-float rounding of `fmt` is modelled as decimal rounding of the rational
value (half away from the floor).  `parseFloat` models the decimal fraction of
`strconv.ParseFloat` (the exponent, infinity and NaN forms never arise from
the fixed-point serializers and are omitted); parse failure is `none`, and the
call sites discard the error exactly as `quote.go` does, keeping the zero
value. -/

def ratRound (x : ℚ) : Int := (2 * x.num + (x.den : Int)) / (2 * (x.den : Int))

def formatFixed (p : Nat) (x : ℚ) : GoStr :=
  let n : Int := ratRound (x * 10 ^ p)
  (if n < 0 then ['-'] else []) ++
    (if p = 0 then natToChars n.natAbs
     else natToChars (n.natAbs / 10 ^ p) ++ '.' :: padNat p (n.natAbs % 10 ^ p))

def parseUFloat (s : GoStr) : Option ℚ :=
  let ip := s.takeWhile Char.isDigit
  match s.dropWhile Char.isDigit with
  | [] => if ip = [] then none else some (parseNat ip : ℚ)
  | '.' :: frac =>
    if (ip = [] ∧ frac = []) ∨ ¬(∀ c ∈ frac, c.isDigit = true) then none
    else some ((parseNat ip : ℚ) + (parseNat frac : ℚ) / 10 ^ frac.length)
  | _ => none

def parseFloat (s : GoStr) : Option ℚ :=
  match s with
  | [] => none
  | c :: rest =>
    if c = '-' then (parseUFloat rest).map (fun x => -x)
    else if c = '+' then parseUFloat rest
    else parseUFloat (c :: rest)

theorem ratRound_int (k : Int) : ratRound ((k : ℚ)) = k := by
  have hnum : ((k : ℚ)).num = k := Rat.intCast_num k
  have hden : ((k : ℚ)).den = 1 := Rat.intCast_den k
  rw [ratRound, hnum, hden]
  have h2 : 2 * k + (1 : Int) = 1 + k * 2 := by ring
  push_cast
  rw [h2, Int.add_mul_ediv_right _ _ (by norm_num : (2 : Int) ≠ 0)]
  omega

theorem ratRound_of_den_one {y : ℚ} (hy : y.den = 1) : ratRound y = y.num := by
  have : ((y.num : ℚ)) = y := (Rat.den_eq_one_iff y).mp hy
  calc ratRound y = ratRound ((y.num : ℚ)) := by rw [this]
  _ = y.num := ratRound_int y.num

theorem takeWhile_append_of_all {α : Type} {q : α → Bool} (a : List α) (c : α) (b : List α)
    (ha : ∀ x ∈ a, q x = true) (hc : q c = false) :
    (a ++ c :: b).takeWhile q = a ∧ (a ++ c :: b).dropWhile q = c :: b := by
  induction a with
  | nil => simp [List.takeWhile, List.dropWhile, hc]
  | cons x rest ih =>
    have hx : q x = true := ha x (List.mem_cons_self x rest)
    have hrest : ∀ y ∈ rest, q y = true := fun y hy => ha y (List.mem_cons_of_mem x hy)
    obtain ⟨h1, h2⟩ := ih hrest
    constructor
    · simp [List.takeWhile, hx, h1]
    · simp [List.dropWhile, hx, h2]

theorem isDigit_ne_special {c : Char} (h : c.isDigit = true) :
    c ≠ '-' ∧ c ≠ '+' ∧ c ≠ '.' ∧ c ≠ ',' ∧ c ≠ '\n' ∧ c ≠ ':' ∧ c ≠ ' ' := by
  refine ⟨?_, ?_, ?_, ?_, ?_, ?_, ?_⟩ <;>
    · intro hc
      rw [hc] at h
      exact absurd h (by decide)

theorem parseUFloat_digits (p a b : Nat) (hp : 0 < p) (hb : b < 10 ^ p) :
    parseUFloat (natToChars a ++ '.' :: padNat p b) =
      some ((a : ℚ) + (b : ℚ) / 10 ^ p) := by
  have hipdig : ∀ c ∈ natToChars a, c.isDigit = true := natToChars_all_digit _
  have hfpdig : ∀ c ∈ padNat p b, c.isDigit = true := padNat_all_digit _ _
  have hipne : natToChars a ≠ [] := natToChars_ne_nil _
  obtain ⟨htw, hdw⟩ :=
    takeWhile_append_of_all (natToChars a) '.' (padNat p b) hipdig (by decide)
  simp only [parseUFloat, htw, hdw]
  rw [if_neg]
  · rw [parseNat_natToChars, parseNat_padNat, padNat_length hp hb]
  · rintro (⟨h1, _⟩ | hbad)
    · exact hipne h1
    · exact hbad hfpdig

theorem div_add_mod_cast_q (m k : Nat) (hk : (0 : ℚ) < (k : ℚ)) :
    ((m / k : Nat) : ℚ) + ((m % k : Nat) : ℚ) / (k : ℚ) = (m : ℚ) / (k : ℚ) := by
  have hdm : k * (m / k) + m % k = m := Nat.div_add_mod m k
  have hcast : (k : ℚ) * ((m / k : Nat) : ℚ) + ((m % k : Nat) : ℚ) = (m : ℚ) := by
    exact_mod_cast congrArg (fun z : Nat => (z : ℚ)) hdm
  have hk0 : (k : ℚ) ≠ 0 := ne_of_gt hk
  field_simp
  linarith [hcast]

theorem parseFloat_formatFixed {p : Nat} (hp : 0 < p) {x : ℚ}
    (hx : (x * 10 ^ p).den = 1) :
    parseFloat (formatFixed p x) = some x := by
  have hround : ratRound (x * 10 ^ p) = (x * 10 ^ p).num := ratRound_of_den_one hx
  set n : Int := (x * 10 ^ p).num with hn
  have hxval : x = (n : ℚ) / 10 ^ p := by
    have hyval : ((n : ℚ)) = x * 10 ^ p := (Rat.den_eq_one_iff (x * 10 ^ p)).mp hx
    rw [hyval]
    field_simp
  have hp0 : p ≠ 0 := by omega
  have hqpow : (0 : ℚ) < ((10 ^ p : Nat) : ℚ) := by positivity
  have hdigits :
      parseUFloat (natToChars (n.natAbs / 10 ^ p) ++ '.' :: padNat p (n.natAbs % 10 ^ p)) =
        some ((n.natAbs : ℚ) / 10 ^ p) := by
    rw [parseUFloat_digits p _ _ hp (Nat.mod_lt _ (Nat.pos_pow_of_pos p (by norm_num)))]
    congr 1
    have := div_add_mod_cast_q n.natAbs (10 ^ p) hqpow
    push_cast at this ⊢
    exact this
  set body : GoStr := natToChars (n.natAbs / 10 ^ p) ++ '.' :: padNat p (n.natAbs % 10 ^ p)
    with hbody
  have hhead : ∃ c cs, body = c :: cs ∧ c.isDigit = true := by
    cases hipc : natToChars (n.natAbs / 10 ^ p) with
    | nil => exact absurd hipc (natToChars_ne_nil _)
    | cons c cs =>
      refine ⟨c, cs ++ '.' :: padNat p (n.natAbs % 10 ^ p), by rw [hbody, hipc]; rfl, ?_⟩
      exact natToChars_all_digit _ c (by rw [hipc]; exact List.mem_cons_self c cs)
  obtain ⟨c, cs, hcs, hcdig⟩ := hhead
  obtain ⟨hne1, hne2, -⟩ := isDigit_ne_special hcdig
  by_cases hneg : n < 0
  · -- negative value: leading minus sign, then the digit body
    have hform : formatFixed p x = '-' :: body := by
      simp only [formatFixed, hround, ← hn, if_pos hneg, if_neg hp0, hbody]
      rfl
    rw [hform, parseFloat, if_pos rfl, hdigits, Option.map_some']
    congr 1
    rw [hxval]
    have hmq : ((n.natAbs : ℚ)) = -(n : ℚ) := by
      rw [Int.cast_natAbs]
      exact_mod_cast abs_of_neg hneg
    rw [hmq]
    ring
  · -- nonnegative value: the digit body alone
    have hform : formatFixed p x = body := by
      simp only [formatFixed, hround, ← hn, if_neg hneg, if_neg hp0, hbody]
      rfl
    rw [hform, hcs, parseFloat, if_neg hne1, if_neg hne2, ← hcs, hdigits]
    congr 1
    rw [hxval]
    have hmq : ((n.natAbs : ℚ)) = (n : ℚ) := by
      rw [Int.cast_natAbs]
      exact_mod_cast abs_of_nonneg (not_lt.mp hneg)
    rw [hmq]

/-! ### Calendar timestamps

`DateTime` models Go `time.Time` at second granularity (the serializers format
at minute granularity and the parsers never produce seconds).  `time.Parse`
with layout `"2006-01-02 15:04"` demands four-digit/two-digit zero-padded
fields and validates month, day-of-month (with leap years), hour and minute;
on failure the callers of `quote.go` keep the zero `time.Time`, which is
January 1 of year 1. -/

structure DateTime where
  year : Nat
  month : Nat
  day : Nat
  hour : Nat
  minute : Nat
  second : Nat
deriving DecidableEq

def zeroDateTime : DateTime := ⟨1, 1, 1, 0, 0, 0⟩

def isLeapYear (y : Nat) : Bool := (y % 4 = 0 && y % 100 ≠ 0) || y % 400 = 0

def daysInMonth (y m : Nat) : Nat :=
  if m = 2 then (if isLeapYear y then 29 else 28)
  else if m = 4 ∨ m = 6 ∨ m = 9 ∨ m = 11 then 30 else 31

/-- Fields representable by the `"2006-01-02 15:04"` layout: four-digit year
and calendar-valid month, day, hour and minute. -/
def validDT (d : DateTime) : Prop :=
  d.year ≤ 9999 ∧ 1 ≤ d.month ∧ d.month ≤ 12 ∧ 1 ≤ d.day ∧
    d.day ≤ daysInMonth d.year d.month ∧ d.hour ≤ 23 ∧ d.minute ≤ 59

instance (d : DateTime) : Decidable (validDT d) := by
  unfold validDT; infer_instance

/-- Go layout `"2006-01-02"`. -/
def fmtYMD (d : DateTime) : GoStr :=
  padNat 4 d.year ++ '-' :: (padNat 2 d.month ++ '-' :: padNat 2 d.day)

/-- Go layout `"15:04"`. -/
def fmtHM (d : DateTime) : GoStr := padNat 2 d.hour ++ ':' :: padNat 2 d.minute

/-- Go layout `"2006-01-02 15:04"`. -/
def fmtDateTime (d : DateTime) : GoStr := fmtYMD d ++ ' ' :: fmtHM d

def parseNatField (w : Nat) (s : GoStr) : Option Nat :=
  if s.length = w ∧ ∀ c ∈ s, c.isDigit = true then some (parseNat s) else none

/-- Model of `time.Parse("2006-01-02 15:04", s)`. -/
def parseDateTime (s : GoStr) : Option DateTime :=
  match splitChar ' ' s with
  | [ds, ts] =>
    match splitChar '-' ds, splitChar ':' ts with
    | [ys, ms, dds], [hs, ns] => do
      let y ← parseNatField 4 ys
      let mo ← parseNatField 2 ms
      let dd ← parseNatField 2 dds
      let hh ← parseNatField 2 hs
      let mi ← parseNatField 2 ns
      if 1 ≤ mo ∧ mo ≤ 12 ∧ 1 ≤ dd ∧ dd ≤ daysInMonth y mo ∧ hh ≤ 23 ∧ mi ≤ 59 then
        some ⟨y, mo, dd, hh, mi, 0⟩
      else none
    | _, _ => none
  | _ => none

/-- Model of `time.Parse("2006-01-02", s)` (the Yahoo response date format). -/
def parseDate10 (s : GoStr) : Option DateTime :=
  match splitChar '-' s with
  | [ys, ms, dds] => do
    let y ← parseNatField 4 ys
    let mo ← parseNatField 2 ms
    let dd ← parseNatField 2 dds
    if 1 ≤ mo ∧ mo ≤ 12 ∧ 1 ≤ dd ∧ dd ≤ daysInMonth y mo then
      some ⟨y, mo, dd, 0, 0, 0⟩
    else none
  | _ => none

theorem padNat_not_mem {w n : Nat} {c : Char} (hc : c.isDigit = false) :
    c ∉ padNat w n := by
  intro hm
  have := padNat_all_digit w n c hm
  rw [this] at hc
  exact absurd hc (by simp)

theorem fmtYMD_chars {d : DateTime} {c : Char} (hc : c ∈ fmtYMD d) :
    c.isDigit = true ∨ c = '-' := by
  rw [fmtYMD] at hc
  rcases List.mem_append.mp hc with h | h
  · exact Or.inl (padNat_all_digit _ _ c h)
  rcases List.mem_cons.mp h with h | h
  · exact Or.inr h
  rcases List.mem_append.mp h with h | h
  · exact Or.inl (padNat_all_digit _ _ c h)
  rcases List.mem_cons.mp h with h | h
  · exact Or.inr h
  · exact Or.inl (padNat_all_digit _ _ c h)

theorem fmtHM_chars {d : DateTime} {c : Char} (hc : c ∈ fmtHM d) :
    c.isDigit = true ∨ c = ':' := by
  rw [fmtHM] at hc
  rcases List.mem_append.mp hc with h | h
  · exact Or.inl (padNat_all_digit _ _ c h)
  rcases List.mem_cons.mp h with h | h
  · exact Or.inr h
  · exact Or.inl (padNat_all_digit _ _ c h)

theorem fmtDateTime_chars {d : DateTime} {c : Char} (hc : c ∈ fmtDateTime d) :
    c.isDigit = true ∨ c = '-' ∨ c = ':' ∨ c = ' ' := by
  rw [fmtDateTime] at hc
  rcases List.mem_append.mp hc with h | h
  · rcases fmtYMD_chars h with h | h
    · exact Or.inl h
    · exact Or.inr (Or.inl h)
  rcases List.mem_cons.mp h with h | h
  · exact Or.inr (Or.inr (Or.inr h))
  · rcases fmtHM_chars h with h | h
    · exact Or.inl h
    · exact Or.inr (Or.inr (Or.inl h))

theorem parseNatField_padNat {w n : Nat} (hw : 0 < w) (hn : n < 10 ^ w) :
    parseNatField w (padNat w n) = some n := by
  rw [parseNatField, if_pos ⟨padNat_length hw hn, padNat_all_digit w n⟩, parseNat_padNat]

theorem parseDateTime_fmtDateTime {d : DateTime} (hv : validDT d) (hs : d.second = 0) :
    parseDateTime (fmtDateTime d) = some d := by
  obtain ⟨hy, hm1, hm2, hd1, hd2, hh, hmi⟩ := hv
  have hySpace : ' ' ∉ fmtYMD d := fun hm => by
    rcases fmtYMD_chars hm with h | h
    · exact absurd h (by decide)
    · exact absurd h (by decide)
  have htSpace : ' ' ∉ fmtHM d := fun hm => by
    rcases fmtHM_chars hm with h | h
    · exact absurd h (by decide)
    · exact absurd h (by decide)
  have hsplit1 : splitChar ' ' (fmtDateTime d) = [fmtYMD d, fmtHM d] := by
    rw [fmtDateTime, splitChar_append ' ' _ _ hySpace, splitChar_of_not_mem ' ' _ htSpace]
  have hyDash : '-' ∉ padNat 4 d.year := padNat_not_mem (by decide)
  have hmDash : '-' ∉ padNat 2 d.month := padNat_not_mem (by decide)
  have hdDash : '-' ∉ padNat 2 d.day := padNat_not_mem (by decide)
  have hhColon : ':' ∉ padNat 2 d.hour := padNat_not_mem (by decide)
  have hsplit2 : splitChar '-' (fmtYMD d) =
      [padNat 4 d.year, padNat 2 d.month, padNat 2 d.day] := by
    rw [fmtYMD, splitChar_append '-' _ _ hyDash, splitChar_append '-' _ _ hmDash,
      splitChar_of_not_mem '-' _ hdDash]
  have hsplit3 : splitChar ':' (fmtHM d) = [padNat 2 d.hour, padNat 2 d.minute] := by
    rw [fmtHM, splitChar_append ':' _ _ hhColon,
      splitChar_of_not_mem ':' _ (padNat_not_mem (by decide))]
  have hdays : daysInMonth d.year d.month ≤ 31 := by
    rw [daysInMonth]
    split
    · split <;> omega
    · split <;> omega
  have hy4 : d.year < 10 ^ 4 := by omega
  have hmo2 : d.month < 10 ^ 2 := by omega
  have hdd2 : d.day < 10 ^ 2 := by omega
  have hh2 : d.hour < 10 ^ 2 := by omega
  have hmi2 : d.minute < 10 ^ 2 := by omega
  rw [parseDateTime, hsplit1]
  simp only [hsplit2, hsplit3,
    parseNatField_padNat (by norm_num) hy4,
    parseNatField_padNat (by norm_num) hmo2,
    parseNatField_padNat (by norm_num) hdd2,
    parseNatField_padNat (by norm_num) hh2,
    parseNatField_padNat (by norm_num) hmi2,
    Option.bind_eq_bind, Option.some_bind]
  rw [if_pos ⟨hm1, hm2, hd1, hd2, hh, hmi⟩]
  cases d
  simp only at hs
  simp [hs]

/-! ### The Quote record and its constructors (quote.go) -/

/-- The `Quote` struct of quote.go.  `Precision` carries the struct field of
the same name (tagged `json:"-"`, never assigned by any code path, so it is
always zero). -/
structure Quote where
  Symbol : GoStr
  Precision : Int
  Date : List DateTime
  Open : List ℚ
  High : List ℚ
  Low : List ℚ
  Close : List ℚ
  Volume : List ℚ
deriving DecidableEq

abbrev Quotes := List Quote

/-- One OHLCV bar: the values read from index `i` of the six parallel slices. -/
structure Bar where
  d : DateTime
  o : ℚ
  h : ℚ
  l : ℚ
  c : ℚ
  v : ℚ
deriving DecidableEq

def zeroBar : Bar := ⟨zeroDateTime, 0, 0, 0, 0, 0⟩

/-- `NewQuote` allocates six zero-filled slices of length `bars`. -/
def NewQuote (symbol : GoStr) (bars : Nat) : Quote :=
  { Symbol := symbol
    Precision := 0
    Date := List.replicate bars zeroDateTime
    Open := List.replicate bars 0
    High := List.replicate bars 0
    Low := List.replicate bars 0
    Close := List.replicate bars 0
    Volume := List.replicate bars 0 }

def mkQuoteOfBars (symbol : GoStr) (bs : List Bar) : Quote :=
  { Symbol := symbol
    Precision := 0
    Date := bs.map Bar.d
    Open := bs.map Bar.o
    High := bs.map Bar.h
    Low := bs.map Bar.l
    Close := bs.map Bar.c
    Volume := bs.map Bar.v }

/-- The slice reads `q.Date[bar]`, `q.Open[bar]`, ... performed by the
serializer loops (which range over `q.Close`). -/
def Quote.barAt (q : Quote) (i : Nat) : Bar :=
  ⟨q.Date.getD i zeroDateTime, q.Open.getD i 0, q.High.getD i 0,
    q.Low.getD i 0, q.Close.getD i 0, q.Volume.getD i 0⟩

def Quote.bars (q : Quote) : List Bar := (List.range q.Close.length).map q.barAt

/-- The sequences of a record are index-aligned. -/
def alignedQ (q : Quote) : Prop :=
  q.Date.length = q.Close.length ∧ q.Open.length = q.Close.length ∧
    q.High.length = q.Close.length ∧ q.Low.length = q.Close.length ∧
    q.Volume.length = q.Close.length

instance (q : Quote) : Decidable (alignedQ q) := by
  unfold alignedQ; infer_instance

/-! ### Display precision (getPrecision) and the serializers -/

def goToUpper (s : GoStr) : GoStr := s.map Char.toUpper

def goStartsWith : GoStr → GoStr → Bool
  | _, [] => true
  | [], _ :: _ => false
  | c :: s, e :: t => c = e && goStartsWith s t

/-- Model of Go `strings.Contains s sub`. -/
def goContains : GoStr → GoStr → Bool
  | [], sub => sub.isEmpty
  | c :: rest, sub => goStartsWith (c :: rest) sub || goContains rest sub

/-- `getPrecision` of quote.go: display precision 8 for tickers containing a
crypto/USD substring (after upper-casing), otherwise 2. -/
def getPrecision (symbol : GoStr) : Nat :=
  if goContains (goToUpper symbol) (gs "BTC") || goContains (goToUpper symbol) (gs "ETH")
      || goContains (goToUpper symbol) (gs "USD") then 8
  else 2

theorem getPrecision_pos (symbol : GoStr) : 0 < getPrecision symbol := by
  rw [getPrecision]
  split <;> norm_num

/-- The body of one `Quote.CSV` output line (without the trailing newline):
`%s,%.*f,%.*f,%.*f,%.*f,%.*f` applied to datetime and the five values. -/
def csvLine (p : Nat) (b : Bar) : GoStr :=
  fmtDateTime b.d ++ ',' :: (formatFixed p b.o ++ ',' :: (formatFixed p b.h ++
    ',' :: (formatFixed p b.l ++ ',' :: (formatFixed p b.c ++ ',' :: formatFixed p b.v))))

def csvWithPrec (p : Nat) (q : Quote) : GoStr :=
  gs "datetime,open,high,low,close,volume\n" ++
    (Quote.bars q).flatMap (fun b => csvLine p b ++ ['\n'])

/-- `Quote.CSV` of quote.go. -/
def Quote.CSV (q : Quote) : GoStr := csvWithPrec (getPrecision q.Symbol) q

/-- The body of one `Quote.Amibroker` output line: the timestamp is split into
a `2006-01-02` date column and a `15:04` time column. -/
def amiLine (p : Nat) (b : Bar) : GoStr :=
  fmtYMD b.d ++ ',' :: (fmtHM b.d ++ ',' :: (formatFixed p b.o ++ ',' ::
    (formatFixed p b.h ++ ',' :: (formatFixed p b.l ++ ',' ::
      (formatFixed p b.c ++ ',' :: formatFixed p b.v)))))

def amiWithPrec (p : Nat) (q : Quote) : GoStr :=
  gs "date,time,open,high,low,close,volume\n" ++
    (Quote.bars q).flatMap (fun b => amiLine p b ++ ['\n'])

/-- `Quote.Amibroker` of quote.go. -/
def Quote.Amibroker (q : Quote) : GoStr := amiWithPrec (getPrecision q.Symbol) q

/-- Civil date to days since the Unix epoch (proleptic Gregorian). -/
def daysFromCivil (y m d : Int) : Int :=
  let yAdj := if m ≤ 2 then y - 1 else y
  let era := (if 0 ≤ yAdj then yAdj else yAdj - 399) / 400
  let yoe := yAdj - era * 400
  let doy := (153 * (if 2 < m then m - 3 else m + 9) + 2) / 5 + d - 1
  let doe := yoe * 365 + yoe / 4 - yoe / 100 + doy
  era * 146097 + doe - 719468

/-- `q.Date[bar].UnixNano() / 1000000` of the Highstock serializers. -/
def toUnixMillis (dt : DateTime) : Int :=
  ((daysFromCivil (dt.year : Int) (dt.month : Int) (dt.day : Int)) * 86400 +
    (dt.hour : Int) * 3600 + (dt.minute : Int) * 60 + (dt.second : Int)) * 1000

/-- Go `%d` on an `int64`. -/
def intToChars (i : Int) : GoStr :=
  (if i < 0 then ['-'] else []) ++ natToChars i.natAbs

/-- One `Quote.Highstock` line `[%d,%.*f,%.*f,%.*f,%.*f,%.*f]%s\n`; the comma
separator is omitted for the last bar. -/
def hsLine (p : Nat) (lastBar : Bool) (b : Bar) : GoStr :=
  '[' :: (intToChars (toUnixMillis b.d) ++ ',' :: (formatFixed p b.o ++ ',' ::
    (formatFixed p b.h ++ ',' :: (formatFixed p b.l ++ ',' ::
      (formatFixed p b.c ++ ',' :: (formatFixed p b.v ++ ']' ::
        ((if lastBar then [] else [',']) ++ ['\n'])))))))

def hsWithPrec (p : Nat) (q : Quote) : GoStr :=
  gs "[\n" ++
    (List.range q.Close.length).flatMap
      (fun i => hsLine p (i == q.Close.length - 1) (q.barAt i)) ++
    gs "]\n"

/-- `Quote.Highstock` of quote.go. -/
def Quote.Highstock (q : Quote) : GoStr := hsWithPrec (getPrecision q.Symbol) q

/-! ### State-passing variants of the serializers

The Go methods receive the record and only read it.  To make that frame
property provable rather than definitional hand-waving, these variants thread
the record through every loop iteration exactly as the Go `for` loops do: each
step reads its fields from the threaded record and appends to the buffer. -/

def Quote.CSVst (q : Quote) : GoStr × Quote :=
  (List.range q.Close.length).foldl
    (fun st i => (st.1 ++ (csvLine (getPrecision q.Symbol) (st.2.barAt i) ++ ['\n']), st.2))
    (gs "datetime,open,high,low,close,volume\n", q)

def Quote.Amibrokerst (q : Quote) : GoStr × Quote :=
  (List.range q.Close.length).foldl
    (fun st i => (st.1 ++ (amiLine (getPrecision q.Symbol) (st.2.barAt i) ++ ['\n']), st.2))
    (gs "date,time,open,high,low,close,volume\n", q)

def Quote.Highstockst (q : Quote) : GoStr × Quote :=
  let r := (List.range q.Close.length).foldl
    (fun st i =>
      (st.1 ++ hsLine (getPrecision q.Symbol) (i == st.2.Close.length - 1) (st.2.barAt i),
        st.2))
    (gs "[\n", q)
  (r.1 ++ gs "]\n", r.2)

def joinComma : List GoStr → GoStr
  | [] => []
  | [s] => s
  | s :: rest => s ++ ',' :: joinComma rest

def jsonArray {α : Type} (render : α → GoStr) (l : List α) : GoStr :=
  '[' :: (joinComma (l.map render) ++ [']'])

/-- `Quote.JSON` (via `encoding/json.Marshal`): the struct marshals as an
object with keys `symbol`, `date`, `open`, `high`, `low`, `close`, `volume`
(`Precision` is tagged `json:"-"` and omitted).  The standard library's
string, timestamp and number encodings are abstracted as renderer
parameters; the record is threaded through each field read. -/
def Quote.JSONst (renderStr : GoStr → GoStr) (renderDate : DateTime → GoStr)
    (renderNum : ℚ → GoStr) (q : Quote) : GoStr × Quote :=
  let s0 := (gs "\x7b\x22symbol\x22:", q)
  let s1 := (s0.1 ++ renderStr s0.2.Symbol ++ gs ",\x22date\x22:", s0.2)
  let s2 := (s1.1 ++ jsonArray renderDate s1.2.Date ++ gs ",\x22open\x22:", s1.2)
  let s3 := (s2.1 ++ jsonArray renderNum s2.2.Open ++ gs ",\x22high\x22:", s2.2)
  let s4 := (s3.1 ++ jsonArray renderNum s3.2.High ++ gs ",\x22low\x22:", s3.2)
  let s5 := (s4.1 ++ jsonArray renderNum s4.2.Low ++ gs ",\x22close\x22:", s4.2)
  let s6 := (s5.1 ++ jsonArray renderNum s5.2.Close ++ gs ",\x22volume\x22:", s5.2)
  (s6.1 ++ jsonArray renderNum s6.2.Volume ++ gs "\x7d", s6.2)

/-! ### NewQuoteFromCSV -/

/-- Parsing of one split CSV row (six fields); field accesses mirror
`line[0]` … `line[5]`, and each `time.Parse`/`strconv.ParseFloat` error is
discarded, keeping the zero value, exactly as in quote.go. -/
def parseCSVBar (line : List GoStr) : Bar :=
  { d := (parseDateTime (line.getD 0 [])).getD zeroDateTime
    o := (parseFloat (line.getD 1 [])).getD 0
    h := (parseFloat (line.getD 2 [])).getD 0
    l := (parseFloat (line.getD 3 [])).getD 0
    c := (parseFloat (line.getD 4 [])).getD 0
    v := (parseFloat (line.getD 5 [])).getD 0 }

/-- `NewQuoteFromCSV` of quote.go: the input is split on newlines, a quote
with `numrows-1` bars is allocated, and rows are filled from row 1 on,
stopping at the first row that does not split into six fields; the remaining
allocated bars keep their zero values.  The returned error is always nil. -/
def NewQuoteFromCSV (symbol csv : GoStr) : Quote × Option GoStr :=
  let tmp := splitChar '\n' csv
  let numrows := tmp.length
  let rows := tmp.drop 1
  let pre := rows.takeWhile (fun r => (splitChar ',' r).length == 6)
  let bs := pre.map (fun r => parseCSVBar (splitChar ',' r))
  (mkQuoteOfBars symbol (bs ++ List.replicate (numrows - 1 - pre.length) zeroBar), none)

/-! ### The Quotes (multi-symbol) serializer and parser -/

/-- `Quotes.CSV` of quote.go: a `symbol,datetime,…` header and, for every
record in order and every bar in order, one line with the record's symbol
prepended to the single-record CSV fields. -/
def Quotes.CSV (qs : Quotes) : GoStr :=
  gs "symbol,datetime,open,high,low,close,volume\n" ++
    qs.flatMap (fun quote =>
      (Quote.bars quote).flatMap (fun b =>
        quote.Symbol ++ ',' :: (csvLine (getPrecision quote.Symbol) b ++ ['\n'])))

/-- The symbol-count index `map[string]int` built by `NewQuotesFromCSV`,
as an association list in first-appearance order. -/
def bumpIndex : List (GoStr × Nat) → GoStr → List (GoStr × Nat)
  | [], sym => [(sym, 1)]
  | (s, n) :: rest, sym =>
    if s = sym then (s, n + 1) :: rest else (s, n) :: bumpIndex rest sym

def buildIndex (rows : List GoStr) : List (GoStr × Nat) :=
  rows.foldl (fun idx r => bumpIndex idx ((splitChar ',' r).headD [])) []

/-- One row of the multi-symbol parser: `line[1]` … `line[6]` are read with no
bounds check, so a row with fewer than seven comma-separated fields makes the
Go code panic with an index-out-of-range error (modelled as `none`). -/
def parseQuotesBar (line : List GoStr) : Option Bar :=
  if 7 ≤ line.length then
    some
      { d := (parseDateTime (line.getD 1 [])).getD zeroDateTime
        o := (parseFloat (line.getD 2 [])).getD 0
        h := (parseFloat (line.getD 3 [])).getD 0
        l := (parseFloat (line.getD 4 [])).getD 0
        c := (parseFloat (line.getD 5 [])).getD 0
        v := (parseFloat (line.getD 6 [])).getD 0 }
  else none

/-- Consume `n` successive rows for one symbol, advancing the shared row
cursor.  Running off the end of `tmp` is also an out-of-range panic. -/
def consumeRows : Nat → List GoStr → Option (List Bar × List GoStr)
  | 0, rows => some ([], rows)
  | _ + 1, [] => none
  | n + 1, r :: rows => do
    let b ← parseQuotesBar (splitChar ',' r)
    let (bs, rest) ← consumeRows n rows
    some (b :: bs, rest)

def quotesFromRows : List GoStr → List (GoStr × Nat) → List GoStr → Option Quotes
  | [], _, _ => some []
  | sym :: order, index, rows => do
    let cnt := (List.lookup sym index).getD 0
    let (bs, rest) ← consumeRows cnt rows
    let qs ← quotesFromRows order index rest
    some (mkQuoteOfBars sym bs :: qs)

/-- `NewQuotesFromCSV` of quote.go.  The Go code counts rows per symbol into a
`map[string]int` and then iterates that map with `range`, whose enumeration
order is unspecified; the enumeration order is therefore an explicit
parameter (`order`), any permutation of the map's keys.  Each map entry
consumes its count of rows from the shared sequential row cursor.  The
returned error is always nil; a panic is `none`. -/
def NewQuotesFromCSV (order : List GoStr) (csv : GoStr) : Option (Quotes × Option GoStr) :=
  let tmp := splitChar '\n' csv
  let rows := tmp.drop 1
  let index := buildIndex rows
  (quotesFromRows order index rows).map (fun qs => (qs, none))

def indexKeys (csv : GoStr) : List GoStr :=
  (buildIndex ((splitChar '\n' csv).drop 1)).map Prod.fst

/-! ### Periods and the Yahoo fetcher -/

/-- `Period` is a string type in quote.go. -/
abbrev Period := GoStr

def Min1 : Period := gs "60"
def Min3 : Period := gs "3m"
def Min5 : Period := gs "300"
def Min15 : Period := gs "900"
def Min30 : Period := gs "1800"
def Min60 : Period := gs "3600"
def Hour2 : Period := gs "2h"
def Hour4 : Period := gs "4h"
def Hour6 : Period := gs "6h"
def Hour8 : Period := gs "8h"
def Hour12 : Period := gs "12h"
def Daily : Period := gs "d"
def Day3 : Period := gs "3d"
def Weekly : Period := gs "w"
def Monthly : Period := gs "m"

/-- One record of the decoded Yahoo CSV body: the seven columns
`Date,Open,High,Low,Close,Adj Close,Volume` accessed as
`csvdata[row][0]` … `csvdata[row][6]`. -/
structure YahooRow where
  dateF : GoStr
  openF : GoStr
  highF : GoStr
  lowF : GoStr
  closeF : GoStr
  adjCloseF : GoStr
  volumeF : GoStr
deriving DecidableEq

/-- Outcome of the network interaction of `NewQuoteFromYahoo`: either an HTTP
or CSV-decoding error (both return the error with an empty quote), or the
decoded rows, header row included. -/
inductive YahooFetch where
  | fail (msg : GoStr)
  | ok (csvdata : List YahooRow)

/-- The per-row normalization of `NewQuoteFromYahoo`: parse the seven fields
(parse errors keep the zero value), then apply the price-adjustment unit
conversion.  With `adjustQuote` the stored bar is `(o, h, l, a)`; without it
the raw prices are rescaled by the adjustment `c / a` (named `ratio` in the
Go source) and the stored bar is `(o*r, h*r, l*r, c)`.  `Volume` is stored
unchanged in both cases. -/
def yahooBar (adjustQuote : Bool) (r : YahooRow) : Bar :=
  let d := (parseDate10 r.dateF).getD zeroDateTime
  let o := (parseFloat r.openF).getD 0
  let hi := (parseFloat r.highF).getD 0
  let lo := (parseFloat r.lowF).getD 0
  let c := (parseFloat r.closeF).getD 0
  let a := (parseFloat r.adjCloseF).getD 0
  let v := (parseFloat r.volumeF).getD 0
  if adjustQuote then ⟨d, o, hi, lo, a, v⟩
  else
    let adjFactor := c / a
    ⟨d, o * adjFactor, hi * adjFactor, lo * adjFactor, c, v⟩

/-- `NewQuoteFromYahoo` of quote.go.  Any period other than `Daily` is
rejected up front (Yahoo intraday support was removed); the guard runs before
the HTTP client is even built, so the result cannot depend on the network,
which is made literal here by the `net` parameter.  `startDate` and `endDate`
only feed the request URL and do not influence the shape of the result. -/
def NewQuoteFromYahoo (symbol startDate endDate : GoStr) (period : Period)
    (adjustQuote : Bool) (net : YahooFetch) : Quote × Option GoStr :=
  if period ≠ Daily then
    (NewQuote [] 0, some (gs "Yahoo intraday data no longer supported"))
  else
    match net with
    | .fail msg => (NewQuote [] 0, some msg)
    | .ok csvdata =>
      (mkQuoteOfBars symbol ((csvdata.drop 1).map (yahooBar adjustQuote)), none)

/-- Events observable from `NewQuotesFromYahooSyms`: an HTTP fetch for a
symbol, and a `time.Sleep(Delay * time.Millisecond)`. -/
inductive YEvent where
  | httpFetch (symbol : GoStr)
  | sleepDelay (ms : Nat)
deriving DecidableEq

/-- `NewQuotesFromYahooSyms` of quote.go: iterate the symbol list in order;
fetch each symbol, keep the quote only when the error is nil, and sleep for
the configured delay after every fetch.  `delay` models the package-level
`Delay` variable; `net` gives each symbol's network outcome.  The function
always returns a nil error.  The second component is the event trace. -/
def NewQuotesFromYahooSyms (symbols : List GoStr) (startDate endDate : GoStr)
    (period : Period) (adjustQuote : Bool) (net : GoStr → YahooFetch)
    (delay : Nat) : (Quotes × Option GoStr) × List YEvent :=
  let step := fun (st : Quotes × List YEvent) (symbol : GoStr) =>
    let fetched := NewQuoteFromYahoo symbol startDate endDate period adjustQuote (net symbol)
    let quotes := match fetched.2 with
      | none => st.1 ++ [fetched.1]
      | some _ => st.1
    (quotes, st.2 ++ [YEvent.httpFetch symbol, YEvent.sleepDelay delay])
  let r := symbols.foldl step ([], [])
  ((r.1, none), r.2)

/-- The `resampleFreq` switch of `tiingoCrypto` in quote.go: granularity
constants map to Tiingo's resampling strings, and every other period value
keeps the default `"1day"`. -/
def tiingoCryptoResampleFreq (period : Period) : GoStr :=
  if period = Min1 then gs "1min"
  else if period = Min3 then gs "3min"
  else if period = Min5 then gs "5min"
  else if period = Min15 then gs "15min"
  else if period = Min30 then gs "30min"
  else if period = Min60 then gs "1hour"
  else if period = Hour2 then gs "2hour"
  else if period = Hour4 then gs "4hour"
  else if period = Hour6 then gs "6hour"
  else if period = Hour8 then gs "8hour"
  else if period = Hour12 then gs "12hour"
  else if period = Daily then gs "1day"
  else gs "1day"

/-! ### Claim theorems -/

theorem alignedQ_NewQuote (symbol : GoStr) (bars : Nat) : alignedQ (NewQuote symbol bars) := by
  simp [alignedQ, NewQuote]

theorem alignedQ_mkQuoteOfBars (symbol : GoStr) (bs : List Bar) :
    alignedQ (mkQuoteOfBars symbol bs) := by
  simp [alignedQ, mkQuoteOfBars]

/-- C1: for every symbol string the display precision computed by
`getPrecision` — the value every serializer formats with — is 8 exactly when
the upper-cased symbol contains `"BTC"`, `"ETH"` or `"USD"`, and 2 in every
other case; and each serializer applies `getPrecision` to its record's
symbol. -/
theorem c1_display_precision (s : GoStr) :
    (getPrecision s = 8 ∨ getPrecision s = 2) ∧
    (getPrecision s = 8 ↔
      (goContains (goToUpper s) (gs "BTC") = true ∨
        goContains (goToUpper s) (gs "ETH") = true ∨
        goContains (goToUpper s) (gs "USD") = true)) ∧
    (getPrecision s = 2 ↔
      ¬(goContains (goToUpper s) (gs "BTC") = true ∨
        goContains (goToUpper s) (gs "ETH") = true ∨
        goContains (goToUpper s) (gs "USD") = true)) ∧
    (∀ q : Quote, Quote.CSV q = csvWithPrec (getPrecision q.Symbol) q ∧
      Quote.Amibroker q = amiWithPrec (getPrecision q.Symbol) q ∧
      Quote.Highstock q = hsWithPrec (getPrecision q.Symbol) q) := by
  refine ⟨?_, ?_, ?_, fun q => ⟨rfl, rfl, rfl⟩⟩
  · rw [getPrecision]
    split
    · exact Or.inl rfl
    · exact Or.inr rfl
  · rw [getPrecision]
    split
    case isTrue h =>
      simp only [Bool.or_eq_true] at h
      constructor
      · intro _; tauto
      · intro _; rfl
    case isFalse h =>
      simp only [Bool.or_eq_true] at h
      constructor
      · intro h8; exact absurd h8 (by norm_num)
      · intro hcond; exact absurd (by tauto) h
  · rw [getPrecision]
    split
    case isTrue h =>
      simp only [Bool.or_eq_true] at h
      constructor
      · intro h2; exact absurd h2 (by norm_num)
      · intro hcond; exact absurd (by tauto) hcond
    case isFalse h =>
      simp only [Bool.or_eq_true] at h
      constructor
      · intro _; tauto
      · intro _; rfl

/-- C2: every record produced by `NewQuote`, `NewQuoteFromCSV` and
`NewQuoteFromYahoo` has its six sequences of equal length (one entry per
bar), and `NewQuote` allocates exactly the requested number of bars. -/
theorem c2_parallel_sequences :
    (∀ symbol bars, alignedQ (NewQuote symbol bars) ∧
      (NewQuote symbol bars).Close.length = bars) ∧
    (∀ symbol csv, alignedQ (NewQuoteFromCSV symbol csv).1) ∧
    (∀ symbol startDate endDate period adjustQuote net,
      alignedQ (NewQuoteFromYahoo symbol startDate endDate period adjustQuote net).1) := by
  refine ⟨fun symbol bars => ⟨alignedQ_NewQuote symbol bars, by simp [NewQuote]⟩,
    fun symbol csv => ?_, fun symbol sd ed period adj net => ?_⟩
  · rw [NewQuoteFromCSV]
    exact alignedQ_mkQuoteOfBars _ _
  · rw [NewQuoteFromYahoo.eq_def]
    split
    · exact alignedQ_NewQuote _ _
    · match net with
      | .fail msg => exact alignedQ_NewQuote _ _
      | .ok csvdata => exact alignedQ_mkQuoteOfBars _ _

/-- C4: the `tiingoCrypto` resampling-frequency mapping sends each granularity
constant to its provider string, and every other period value — `Day3`,
`Weekly` and `Monthly` included — to the default `"1day"`. -/
theorem c4_resample_mapping :
    (tiingoCryptoResampleFreq Min1 = gs "1min" ∧
      tiingoCryptoResampleFreq Min3 = gs "3min" ∧
      tiingoCryptoResampleFreq Min5 = gs "5min" ∧
      tiingoCryptoResampleFreq Min15 = gs "15min" ∧
      tiingoCryptoResampleFreq Min30 = gs "30min" ∧
      tiingoCryptoResampleFreq Min60 = gs "1hour" ∧
      tiingoCryptoResampleFreq Hour2 = gs "2hour" ∧
      tiingoCryptoResampleFreq Hour4 = gs "4hour" ∧
      tiingoCryptoResampleFreq Hour6 = gs "6hour" ∧
      tiingoCryptoResampleFreq Hour8 = gs "8hour" ∧
      tiingoCryptoResampleFreq Hour12 = gs "12hour" ∧
      tiingoCryptoResampleFreq Daily = gs "1day") ∧
    (tiingoCryptoResampleFreq Day3 = gs "1day" ∧
      tiingoCryptoResampleFreq Weekly = gs "1day" ∧
      tiingoCryptoResampleFreq Monthly = gs "1day") ∧
    (∀ period : Period,
      period ∉ [Min1, Min3, Min5, Min15, Min30, Min60,
        Hour2, Hour4, Hour6, Hour8, Hour12, Daily] →
      tiingoCryptoResampleFreq period = gs "1day") := by
  refine ⟨by decide, by decide, fun period hp => ?_⟩
  simp only [List.mem_cons, List.not_mem_nil, or_false, not_or] at hp
  obtain ⟨h1, h2, h3, h4, h5, h6, h7, h8, h9, h10, h11, h12⟩ := hp
  rw [tiingoCryptoResampleFreq, if_neg h1, if_neg h2, if_neg h3, if_neg h4,
    if_neg h5, if_neg h6, if_neg h7, if_neg h8, if_neg h9, if_neg h10,
    if_neg h11, if_neg h12]

/-- Witness for C4 at a period value outside the mapped constants. -/
theorem c4_resample_mapping_witness :
    ((gs "1w" : Period) ∉ [Min1, Min3, Min5, Min15, Min30, Min60,
      Hour2, Hour4, Hour6, Hour8, Hour12, Daily]) ∧
    tiingoCryptoResampleFreq (gs "1w") = gs "1day" :=
  ⟨by decide, c4_resample_mapping.2.2 (gs "1w") (by decide)⟩

/-- C10: with any period other than `Daily`, `NewQuoteFromYahoo` returns the
empty record (empty symbol, zero bars) and a non-nil error, and the result is
the same whatever the network returns — the guard fires before any request is
issued. -/
theorem c10_yahoo_non_daily (symbol startDate endDate : GoStr) (period : Period)
    (adjustQuote : Bool) (net : YahooFetch) (hp : period ≠ Daily) :
    NewQuoteFromYahoo symbol startDate endDate period adjustQuote net =
      (NewQuote [] 0, some (gs "Yahoo intraday data no longer supported")) ∧
    (NewQuoteFromYahoo symbol startDate endDate period adjustQuote net).1.Symbol = [] ∧
    (NewQuoteFromYahoo symbol startDate endDate period adjustQuote net).1.Close.length = 0 ∧
    (NewQuoteFromYahoo symbol startDate endDate period adjustQuote net).2 ≠ none ∧
    (∀ net', NewQuoteFromYahoo symbol startDate endDate period adjustQuote net =
      NewQuoteFromYahoo symbol startDate endDate period adjustQuote net') := by
  have hmain : NewQuoteFromYahoo symbol startDate endDate period adjustQuote net =
      (NewQuote [] 0, some (gs "Yahoo intraday data no longer supported")) := by
    rw [NewQuoteFromYahoo.eq_def, if_pos hp]
  refine ⟨hmain, by rw [hmain]; rfl, by rw [hmain]; simp [NewQuote], by rw [hmain]; simp,
    fun net' => ?_⟩
  rw [hmain, NewQuoteFromYahoo.eq_def, if_pos hp]

/-- Witness for C10 at the `Weekly` period. -/
theorem c10_yahoo_non_daily_witness :
    (Weekly ≠ Daily) ∧
    NewQuoteFromYahoo (gs "spy") [] [] Weekly true (.ok []) =
      (NewQuote [] 0, some (gs "Yahoo intraday data no longer supported")) :=
  ⟨by decide,
    (c10_yahoo_non_daily (gs "spy") [] [] Weekly true (.ok []) (by decide)).1⟩

/-- C3: in the Yahoo normalization, for every parsed data row (the rows after
the header) with raw open `o`, high `h`, low `l`, close `c` and adjusted
close `a`: with `adjustQuote` the stored bar is `(o, h, l, a)`; without it
the stored bar is `(o*r, h*r, l*r, c)` with `r = c / a`; the volume is stored
unchanged in both cases. -/
theorem c3_yahoo_adjustment (symbol startDate endDate : GoStr) (adjustQuote : Bool)
    (csvdata : List YahooRow) (i : Nat) (r : YahooRow)
    (hr : (csvdata.drop 1)[i]? = some r) :
    (NewQuoteFromYahoo symbol startDate endDate Daily adjustQuote (.ok csvdata)).1.Open[i]? =
      some (if adjustQuote then (parseFloat r.openF).getD 0
        else (parseFloat r.openF).getD 0 *
          ((parseFloat r.closeF).getD 0 / (parseFloat r.adjCloseF).getD 0)) ∧
    (NewQuoteFromYahoo symbol startDate endDate Daily adjustQuote (.ok csvdata)).1.High[i]? =
      some (if adjustQuote then (parseFloat r.highF).getD 0
        else (parseFloat r.highF).getD 0 *
          ((parseFloat r.closeF).getD 0 / (parseFloat r.adjCloseF).getD 0)) ∧
    (NewQuoteFromYahoo symbol startDate endDate Daily adjustQuote (.ok csvdata)).1.Low[i]? =
      some (if adjustQuote then (parseFloat r.lowF).getD 0
        else (parseFloat r.lowF).getD 0 *
          ((parseFloat r.closeF).getD 0 / (parseFloat r.adjCloseF).getD 0)) ∧
    (NewQuoteFromYahoo symbol startDate endDate Daily adjustQuote (.ok csvdata)).1.Close[i]? =
      some (if adjustQuote then (parseFloat r.adjCloseF).getD 0
        else (parseFloat r.closeF).getD 0) ∧
    (NewQuoteFromYahoo symbol startDate endDate Daily adjustQuote (.ok csvdata)).1.Volume[i]? =
      some ((parseFloat r.volumeF).getD 0) := by
  have hq : NewQuoteFromYahoo symbol startDate endDate Daily adjustQuote (.ok csvdata) =
      (mkQuoteOfBars symbol ((csvdata.drop 1).map (yahooBar adjustQuote)), none) := by
    rw [NewQuoteFromYahoo.eq_def, if_neg (fun hcon => hcon rfl)]
  rw [hq]
  simp only [mkQuoteOfBars, List.map_map, List.getElem?_map, hr, Option.map_some,
    Function.comp_apply]
  cases adjustQuote <;>
    simp [yahooBar, Bar.o, Bar.h, Bar.l, Bar.c, Bar.v]

def yahooHeaderRow : YahooRow :=
  ⟨gs "Date", gs "Open", gs "High", gs "Low", gs "Close", gs "Adj Close", gs "Volume"⟩

def yahooSampleRow : YahooRow :=
  ⟨gs "2014-07-14", gs "95.86", gs "96.89", gs "95.65", gs "96.45", gs "88.40",
    gs "42810000"⟩

/-- Witness for C3 on a concrete decoded response with one data row, without
price adjustment. -/
theorem c3_yahoo_adjustment_witness :
    (([yahooHeaderRow, yahooSampleRow].drop 1)[0]? = some yahooSampleRow) ∧
    ((NewQuoteFromYahoo (gs "spy") [] [] Daily false
        (.ok [yahooHeaderRow, yahooSampleRow])).1.Open[0]? =
      some (if false then (parseFloat yahooSampleRow.openF).getD 0
        else (parseFloat yahooSampleRow.openF).getD 0 *
          ((parseFloat yahooSampleRow.closeF).getD 0 /
            (parseFloat yahooSampleRow.adjCloseF).getD 0)) ∧
    (NewQuoteFromYahoo (gs "spy") [] [] Daily false
        (.ok [yahooHeaderRow, yahooSampleRow])).1.High[0]? =
      some (if false then (parseFloat yahooSampleRow.highF).getD 0
        else (parseFloat yahooSampleRow.highF).getD 0 *
          ((parseFloat yahooSampleRow.closeF).getD 0 /
            (parseFloat yahooSampleRow.adjCloseF).getD 0)) ∧
    (NewQuoteFromYahoo (gs "spy") [] [] Daily false
        (.ok [yahooHeaderRow, yahooSampleRow])).1.Low[0]? =
      some (if false then (parseFloat yahooSampleRow.lowF).getD 0
        else (parseFloat yahooSampleRow.lowF).getD 0 *
          ((parseFloat yahooSampleRow.closeF).getD 0 /
            (parseFloat yahooSampleRow.adjCloseF).getD 0)) ∧
    (NewQuoteFromYahoo (gs "spy") [] [] Daily false
        (.ok [yahooHeaderRow, yahooSampleRow])).1.Close[0]? =
      some (if false then (parseFloat yahooSampleRow.adjCloseF).getD 0
        else (parseFloat yahooSampleRow.closeF).getD 0) ∧
    (NewQuoteFromYahoo (gs "spy") [] [] Daily false
        (.ok [yahooHeaderRow, yahooSampleRow])).1.Volume[0]? =
      some ((parseFloat yahooSampleRow.volumeF).getD 0)) :=
  ⟨by decide,
    c3_yahoo_adjustment (gs "spy") [] [] false [yahooHeaderRow, yahooSampleRow] 0
      yahooSampleRow (by decide)⟩

theorem driver_foldl (startDate endDate : GoStr) (period : Period)
    (adjustQuote : Bool) (net : GoStr → YahooFetch) (delay : Nat)
    (symbols : List GoStr) (qs0 : Quotes) (tr0 : List YEvent) :
    symbols.foldl
      (fun (st : Quotes × List YEvent) (symbol : GoStr) =>
        let fetched := NewQuoteFromYahoo symbol startDate endDate period adjustQuote
          (net symbol)
        let quotes := match fetched.2 with
          | none => st.1 ++ [fetched.1]
          | some _ => st.1
        (quotes, st.2 ++ [YEvent.httpFetch symbol, YEvent.sleepDelay delay]))
      (qs0, tr0) =
    (qs0 ++ symbols.filterMap (fun s =>
        match NewQuoteFromYahoo s startDate endDate period adjustQuote (net s) with
        | (q, none) => some q
        | (_, some _) => none),
      tr0 ++ symbols.flatMap (fun s => [YEvent.httpFetch s, YEvent.sleepDelay delay])) := by
  induction symbols generalizing qs0 tr0 with
  | nil => simp
  | cons s rest ih =>
    simp only [List.foldl_cons, List.filterMap_cons, List.flatMap_cons]
    rcases hfetch : NewQuoteFromYahoo s startDate endDate period adjustQuote (net s) with
      ⟨q, err⟩
    cases err with
    | none =>
      simp only [hfetch]
      rw [ih]
      simp [List.append_assoc]
    | some msg =>
      simp only [hfetch]
      rw [ih]
      simp [List.append_assoc]

/-- C6: the batch driver walks the symbol list strictly in order, issuing one
fetch then one fixed-delay sleep per symbol (the event trace is exactly that
sequence); it returns the successfully fetched records in the same order,
omitting symbols whose fetch errored, and always returns a nil error. -/
theorem c6_sequential_driver (symbols : List GoStr) (startDate endDate : GoStr)
    (period : Period) (adjustQuote : Bool) (net : GoStr → YahooFetch) (delay : Nat) :
    (NewQuotesFromYahooSyms symbols startDate endDate period adjustQuote net delay).1.2 =
      none ∧
    (NewQuotesFromYahooSyms symbols startDate endDate period adjustQuote net delay).1.1 =
      symbols.filterMap (fun s =>
        match NewQuoteFromYahoo s startDate endDate period adjustQuote (net s) with
        | (q, none) => some q
        | (_, some _) => none) ∧
    (NewQuotesFromYahooSyms symbols startDate endDate period adjustQuote net delay).2 =
      symbols.flatMap (fun s => [YEvent.httpFetch s, YEvent.sleepDelay delay]) := by
  refine ⟨rfl, ?_, ?_⟩ <;>
    · rw [NewQuotesFromYahooSyms]
      rw [driver_foldl startDate endDate period adjustQuote net delay symbols [] []]
      simp

/-! ### Helper lemmas for the serializer-shape and round-trip claims -/

theorem formatFixed_chars {p : Nat} {x : ℚ} {c : Char} (hc : c ∈ formatFixed p x) :
    c.isDigit = true ∨ c = '-' ∨ c = '.' := by
  rw [formatFixed] at hc
  rcases List.mem_append.mp hc with h | h
  · split at h
    · rcases List.mem_singleton.mp h with rfl
      exact Or.inr (Or.inl rfl)
    · exact absurd h (List.not_mem_nil c)
  · split at h
    · exact Or.inl (natToChars_all_digit _ c h)
    · rcases List.mem_append.mp h with h | h
      · exact Or.inl (natToChars_all_digit _ c h)
      · rcases List.mem_cons.mp h with rfl | h
        · exact Or.inr (Or.inr rfl)
        · exact Or.inl (padNat_all_digit _ _ c h)

theorem formatFixed_not_mem {p : Nat} {x : ℚ} {c : Char}
    (h1 : c.isDigit = false) (h2 : c ≠ '-') (h3 : c ≠ '.') : c ∉ formatFixed p x := by
  intro hc
  rcases formatFixed_chars hc with h | h | h
  · rw [h] at h1; exact absurd h1 (by simp)
  · exact h2 h
  · exact h3 h

theorem comma_not_mem_formatFixed {p : Nat} {x : ℚ} : ',' ∉ formatFixed p x :=
  formatFixed_not_mem (by decide) (by decide) (by decide)

theorem nl_not_mem_formatFixed {p : Nat} {x : ℚ} : '\n' ∉ formatFixed p x :=
  formatFixed_not_mem (by decide) (by decide) (by decide)

theorem comma_not_mem_fmtDateTime {d : DateTime} : ',' ∉ fmtDateTime d := by
  intro hc
  rcases fmtDateTime_chars hc with h | h | h | h <;> exact absurd h (by decide)

theorem nl_not_mem_fmtDateTime {d : DateTime} : '\n' ∉ fmtDateTime d := by
  intro hc
  rcases fmtDateTime_chars hc with h | h | h | h <;> exact absurd h (by decide)

theorem comma_not_mem_fmtYMD {d : DateTime} : ',' ∉ fmtYMD d := by
  intro hc
  rcases fmtYMD_chars hc with h | h <;> exact absurd h (by decide)

theorem nl_not_mem_fmtYMD {d : DateTime} : '\n' ∉ fmtYMD d := by
  intro hc
  rcases fmtYMD_chars hc with h | h <;> exact absurd h (by decide)

theorem comma_not_mem_fmtHM {d : DateTime} : ',' ∉ fmtHM d := by
  intro hc
  rcases fmtHM_chars hc with h | h <;> exact absurd h (by decide)

theorem nl_not_mem_fmtHM {d : DateTime} : '\n' ∉ fmtHM d := by
  intro hc
  rcases fmtHM_chars hc with h | h <;> exact absurd h (by decide)

/-- Splitting one CSV output line on commas recovers the six fields. -/
theorem splitChar_csvLine (p : Nat) (b : Bar) :
    splitChar ',' (csvLine p b) =
      [fmtDateTime b.d, formatFixed p b.o, formatFixed p b.h, formatFixed p b.l,
        formatFixed p b.c, formatFixed p b.v] := by
  rw [csvLine, splitChar_append ',' _ _ comma_not_mem_fmtDateTime,
    splitChar_append ',' _ _ comma_not_mem_formatFixed,
    splitChar_append ',' _ _ comma_not_mem_formatFixed,
    splitChar_append ',' _ _ comma_not_mem_formatFixed,
    splitChar_append ',' _ _ comma_not_mem_formatFixed,
    splitChar_of_not_mem ',' _ comma_not_mem_formatFixed]

/-- Splitting one Amibroker output line on commas recovers the seven fields:
a date column, a time column and the five values. -/
theorem splitChar_amiLine (p : Nat) (b : Bar) :
    splitChar ',' (amiLine p b) =
      [fmtYMD b.d, fmtHM b.d, formatFixed p b.o, formatFixed p b.h, formatFixed p b.l,
        formatFixed p b.c, formatFixed p b.v] := by
  rw [amiLine, splitChar_append ',' _ _ comma_not_mem_fmtYMD,
    splitChar_append ',' _ _ comma_not_mem_fmtHM,
    splitChar_append ',' _ _ comma_not_mem_formatFixed,
    splitChar_append ',' _ _ comma_not_mem_formatFixed,
    splitChar_append ',' _ _ comma_not_mem_formatFixed,
    splitChar_append ',' _ _ comma_not_mem_formatFixed,
    splitChar_of_not_mem ',' _ comma_not_mem_formatFixed]

theorem nl_not_mem_csvLine {p : Nat} {b : Bar} : '\n' ∉ csvLine p b := by
  intro hc
  rw [csvLine] at hc
  rcases List.mem_append.mp hc with h | h
  · exact nl_not_mem_fmtDateTime h
  rcases List.mem_cons.mp h with h | h
  · exact absurd h (by decide)
  rcases List.mem_append.mp h with h | h
  · exact nl_not_mem_formatFixed h
  rcases List.mem_cons.mp h with h | h
  · exact absurd h (by decide)
  rcases List.mem_append.mp h with h | h
  · exact nl_not_mem_formatFixed h
  rcases List.mem_cons.mp h with h | h
  · exact absurd h (by decide)
  rcases List.mem_append.mp h with h | h
  · exact nl_not_mem_formatFixed h
  rcases List.mem_cons.mp h with h | h
  · exact absurd h (by decide)
  rcases List.mem_append.mp h with h | h
  · exact nl_not_mem_formatFixed h
  rcases List.mem_cons.mp h with h | h
  · exact absurd h (by decide)
  · exact nl_not_mem_formatFixed h

theorem nl_not_mem_amiLine {p : Nat} {b : Bar} : '\n' ∉ amiLine p b := by
  intro hc
  rw [amiLine] at hc
  rcases List.mem_append.mp hc with h | h
  · exact nl_not_mem_fmtYMD h
  rcases List.mem_cons.mp h with h | h
  · exact absurd h (by decide)
  rcases List.mem_append.mp h with h | h
  · exact nl_not_mem_fmtHM h
  rcases List.mem_cons.mp h with h | h
  · exact absurd h (by decide)
  rcases List.mem_append.mp h with h | h
  · exact nl_not_mem_formatFixed h
  rcases List.mem_cons.mp h with h | h
  · exact absurd h (by decide)
  rcases List.mem_append.mp h with h | h
  · exact nl_not_mem_formatFixed h
  rcases List.mem_cons.mp h with h | h
  · exact absurd h (by decide)
  rcases List.mem_append.mp h with h | h
  · exact nl_not_mem_formatFixed h
  rcases List.mem_cons.mp h with h | h
  · exact absurd h (by decide)
  rcases List.mem_append.mp h with h | h
  · exact nl_not_mem_formatFixed h
  rcases List.mem_cons.mp h with h | h
  · exact absurd h (by decide)
  · exact nl_not_mem_formatFixed h

/-- Splitting a block of newline-terminated lines on newlines yields the
lines followed by one empty string. -/
theorem splitChar_nl_flatMap (lines : List GoStr) (h : ∀ l ∈ lines, '\n' ∉ l) :
    splitChar '\n' (lines.flatMap (fun l => l ++ ['\n'])) = lines ++ [[]] := by
  induction lines with
  | nil => rfl
  | cons l rest ih =>
    have hl : '\n' ∉ l := h l (List.mem_cons_self l rest)
    have hrest : ∀ x ∈ rest, '\n' ∉ x := fun x hx => h x (List.mem_cons_of_mem l hx)
    rw [List.flatMap_cons, List.append_assoc, List.singleton_append,
      splitChar_append '\n' _ _ hl, ih hrest, List.cons_append]

/-- Newline-splitting of the single-record CSV output: the header line, one
line per bar, then the empty remainder of the trailing newline. -/
theorem split_nl_csv (q : Quote) :
    splitChar '\n' (Quote.CSV q) =
      gs "datetime,open,high,low,close,volume" ::
        ((Quote.bars q).map (csvLine (getPrecision q.Symbol)) ++ [[]]) := by
  have hhdr : gs "datetime,open,high,low,close,volume\n" =
      gs "datetime,open,high,low,close,volume" ++ '\n' :: [] := by decide
  have hflat : (Quote.bars q).flatMap
        (fun b => csvLine (getPrecision q.Symbol) b ++ ['\n']) =
      ((Quote.bars q).map (csvLine (getPrecision q.Symbol))).flatMap
        (fun l => l ++ ['\n']) := by
    rw [List.flatMap_map]
  rw [Quote.CSV, csvWithPrec, hhdr, List.append_assoc, List.singleton_append,
    splitChar_append '\n' _ _ (by decide), hflat,
    splitChar_nl_flatMap _ ?safe]
  case safe =>
    intro l hl
    rcases List.mem_map.mp hl with ⟨b, _, rfl⟩
    exact nl_not_mem_csvLine

/-- Newline-splitting of the Amibroker output. -/
theorem split_nl_ami (q : Quote) :
    splitChar '\n' (Quote.Amibroker q) =
      gs "date,time,open,high,low,close,volume" ::
        ((Quote.bars q).map (amiLine (getPrecision q.Symbol)) ++ [[]]) := by
  have hhdr : gs "date,time,open,high,low,close,volume\n" =
      gs "date,time,open,high,low,close,volume" ++ '\n' :: [] := by decide
  have hflat : (Quote.bars q).flatMap
        (fun b => amiLine (getPrecision q.Symbol) b ++ ['\n']) =
      ((Quote.bars q).map (amiLine (getPrecision q.Symbol))).flatMap
        (fun l => l ++ ['\n']) := by
    rw [List.flatMap_map]
  rw [Quote.Amibroker, amiWithPrec, hhdr, List.append_assoc, List.singleton_append,
    splitChar_append '\n' _ _ (by decide), hflat,
    splitChar_nl_flatMap _ ?safe]
  case safe =>
    intro l hl
    rcases List.mem_map.mp hl with ⟨b, _, rfl⟩
    exact nl_not_mem_amiLine

/-- C7: the Amibroker serializer emits the `date,time,…` header and exactly
one line per bar, each line carrying the bar's date (`yyyy-mm-dd`) and time
(`HH:MM`) in two separate columns followed by the five values formatted at
the symbol's precision; the plain CSV serializer emits the `datetime,…`
header with the timestamp in one combined column. -/
theorem c7_output_shapes (q : Quote) :
    splitChar '\n' (Quote.Amibroker q) =
      gs "date,time,open,high,low,close,volume" ::
        ((Quote.bars q).map (amiLine (getPrecision q.Symbol)) ++ [[]]) ∧
    (∀ p b, splitChar ',' (amiLine p b) =
      [fmtYMD b.d, fmtHM b.d, formatFixed p b.o, formatFixed p b.h, formatFixed p b.l,
        formatFixed p b.c, formatFixed p b.v]) ∧
    splitChar '\n' (Quote.CSV q) =
      gs "datetime,open,high,low,close,volume" ::
        ((Quote.bars q).map (csvLine (getPrecision q.Symbol)) ++ [[]]) ∧
    (∀ p b, splitChar ',' (csvLine p b) =
      [fmtDateTime b.d, formatFixed p b.o, formatFixed p b.h, formatFixed p b.l,
        formatFixed p b.c, formatFixed p b.v]) :=
  ⟨split_nl_ami q, splitChar_amiLine, split_nl_csv q, splitChar_csvLine⟩

theorem foldl_emit {α : Type} (f : Quote → α → GoStr) (q : Quote) (l : List α)
    (s0 : GoStr) :
    l.foldl (fun (st : GoStr × Quote) i => (st.1 ++ f st.2 i, st.2)) (s0, q) =
      (s0 ++ l.flatMap (f q), q) := by
  induction l generalizing s0 with
  | nil => simp
  | cons a rest ih =>
    rw [List.foldl_cons, ih, List.flatMap_cons, List.append_assoc]

/-- C8: none of the serializers mutates the record.  For the three loop-based
textual serializers the record threaded through every loop iteration comes
out unchanged and the emitted buffer equals the pure serializer's output; the
JSON marshalling (whatever the library's string/date/number encoders do)
leaves the record unchanged as well. -/
theorem c8_serializers_frame (q : Quote) :
    (Quote.CSVst q).2 = q ∧ (Quote.CSVst q).1 = Quote.CSV q ∧
    (Quote.Amibrokerst q).2 = q ∧ (Quote.Amibrokerst q).1 = Quote.Amibroker q ∧
    (Quote.Highstockst q).2 = q ∧ (Quote.Highstockst q).1 = Quote.Highstock q ∧
    (∀ renderStr renderDate renderNum,
      (Quote.JSONst renderStr renderDate renderNum q).2 = q) := by
  have hcsv : Quote.CSVst q =
      (gs "datetime,open,high,low,close,volume\n" ++
        (List.range q.Close.length).flatMap
          (fun i => csvLine (getPrecision q.Symbol) (q.barAt i) ++ ['\n']), q) := by
    rw [Quote.CSVst]
    exact foldl_emit
      (fun qq i => csvLine (getPrecision q.Symbol) (qq.barAt i) ++ ['\n']) q _ _
  have hami : Quote.Amibrokerst q =
      (gs "date,time,open,high,low,close,volume\n" ++
        (List.range q.Close.length).flatMap
          (fun i => amiLine (getPrecision q.Symbol) (q.barAt i) ++ ['\n']), q) := by
    rw [Quote.Amibrokerst]
    exact foldl_emit
      (fun qq i => amiLine (getPrecision q.Symbol) (qq.barAt i) ++ ['\n']) q _ _
  have hhs : Quote.Highstockst q =
      (gs "[\n" ++
        (List.range q.Close.length).flatMap
          (fun i => hsLine (getPrecision q.Symbol) (i == q.Close.length - 1) (q.barAt i)) ++
        gs "]\n", q) := by
    rw [Quote.Highstockst]
    rw [foldl_emit
      (fun qq i => hsLine (getPrecision q.Symbol) (i == qq.Close.length - 1) (qq.barAt i))
      q _ _]
  refine ⟨by rw [hcsv], ?_, by rw [hami], ?_, by rw [hhs], ?_, fun _ _ _ => rfl⟩
  · rw [hcsv, Quote.CSV, csvWithPrec, Quote.bars, List.flatMap_map]
  · rw [hami, Quote.Amibroker, amiWithPrec, Quote.bars, List.flatMap_map]
  · rw [hhs, Quote.Highstock, hsWithPrec]

theorem range_map_getD {α : Type} (l : List α) (dflt : α) :
    (List.range l.length).map (fun i => l.getD i dflt) = l := by
  induction l with
  | nil => rfl
  | cons a t ih =>
    rw [List.length_cons, List.range_succ_eq_map, List.map_cons, List.map_map]
    simp only [List.getD_cons_zero, Function.comp_def, Nat.succ_eq_add_one,
      List.getD_cons_succ]
    rw [ih]

theorem range_map_getD_of_len {α : Type} (l : List α) (n : Nat) (dflt : α)
    (h : l.length = n) :
    (List.range n).map (fun i => l.getD i dflt) = l := by
  subst h
  exact range_map_getD l dflt

theorem bars_map_proj (q : Quote) (hal : alignedQ q) :
    (Quote.bars q).map Bar.d = q.Date ∧ (Quote.bars q).map Bar.o = q.Open ∧
    (Quote.bars q).map Bar.h = q.High ∧ (Quote.bars q).map Bar.l = q.Low ∧
    (Quote.bars q).map Bar.c = q.Close ∧ (Quote.bars q).map Bar.v = q.Volume := by
  obtain ⟨h1, h2, h3, h4, h5⟩ := hal
  rw [Quote.bars]
  refine ⟨?_, ?_, ?_, ?_, ?_, ?_⟩ <;> rw [List.map_map]
  · exact range_map_getD_of_len q.Date _ zeroDateTime h1
  · exact range_map_getD_of_len q.Open _ 0 h2
  · exact range_map_getD_of_len q.High _ 0 h3
  · exact range_map_getD_of_len q.Low _ 0 h4
  · exact range_map_getD_of_len q.Close _ 0 rfl
  · exact range_map_getD_of_len q.Volume _ 0 h5

/-- Round trip of a single bar through one CSV line. -/
theorem parseCSVBar_csvLine {p : Nat} (b : Bar) (hp : 0 < p)
    (hd : validDT b.d) (hsec : b.d.second = 0)
    (ho : (b.o * 10 ^ p).den = 1) (hh : (b.h * 10 ^ p).den = 1)
    (hl : (b.l * 10 ^ p).den = 1) (hc : (b.c * 10 ^ p).den = 1)
    (hv : (b.v * 10 ^ p).den = 1) :
    parseCSVBar (splitChar ',' (csvLine p b)) = b := by
  rw [splitChar_csvLine, parseCSVBar]
  simp only [List.getD_cons_zero, List.getD_cons_succ]
  rw [parseDateTime_fmtDateTime hd hsec, parseFloat_formatFixed hp ho,
    parseFloat_formatFixed hp hh, parseFloat_formatFixed hp hl,
    parseFloat_formatFixed hp hc, parseFloat_formatFixed hp hv]
  cases b
  rfl

/-- General single-record CSV round trip: parsing the serializer's own output
reproduces every original bar in order, followed by one extra all-zero bar
caused by the bar-count over-allocation on the trailing newline; the error is
nil. -/
theorem csv_roundtrip (q : Quote) (hal : alignedQ q)
    (hdates : ∀ d ∈ q.Date, validDT d ∧ d.second = 0)
    (hopen : ∀ x ∈ q.Open, (x * 10 ^ getPrecision q.Symbol).den = 1)
    (hhigh : ∀ x ∈ q.High, (x * 10 ^ getPrecision q.Symbol).den = 1)
    (hlow : ∀ x ∈ q.Low, (x * 10 ^ getPrecision q.Symbol).den = 1)
    (hclose : ∀ x ∈ q.Close, (x * 10 ^ getPrecision q.Symbol).den = 1)
    (hvol : ∀ x ∈ q.Volume, (x * 10 ^ getPrecision q.Symbol).den = 1) :
    NewQuoteFromCSV q.Symbol (Quote.CSV q) =
      ({ Symbol := q.Symbol, Precision := 0, Date := q.Date ++ [zeroDateTime],
         Open := q.Open ++ [0], High := q.High ++ [0], Low := q.Low ++ [0],
         Close := q.Close ++ [0], Volume := q.Volume ++ [0] }, none) := by
  obtain ⟨hpd, hpo, hph, hpl, hpc, hpv⟩ := bars_map_proj q hal
  set p : Nat := getPrecision q.Symbol with hpdef
  have hp : 0 < p := getPrecision_pos q.Symbol
  have hbar : ∀ b ∈ Quote.bars q, parseCSVBar (splitChar ',' (csvLine p b)) = b := by
    intro b hb
    refine parseCSVBar_csvLine b hp ?_ ?_ ?_ ?_ ?_ ?_ ?_
    · exact (hdates b.d (hpd ▸ List.mem_map_of_mem Bar.d hb)).1
    · exact (hdates b.d (hpd ▸ List.mem_map_of_mem Bar.d hb)).2
    · exact hopen b.o (hpo ▸ List.mem_map_of_mem Bar.o hb)
    · exact hhigh b.h (hph ▸ List.mem_map_of_mem Bar.h hb)
    · exact hlow b.l (hpl ▸ List.mem_map_of_mem Bar.l hb)
    · exact hclose b.c (hpc ▸ List.mem_map_of_mem Bar.c hb)
    · exact hvol b.v (hpv ▸ List.mem_map_of_mem Bar.v hb)
  have hsplit := split_nl_csv q
  rw [← hpdef] at hsplit
  have hpred : ∀ r ∈ (Quote.bars q).map (csvLine p),
      ((splitChar ',' r).length == 6) = true := by
    intro r hr
    rcases List.mem_map.mp hr with ⟨b, _, rfl⟩
    rw [splitChar_csvLine]
    rfl
  obtain ⟨htake, -⟩ :=
    takeWhile_append_of_all ((Quote.bars q).map (csvLine p)) ([] : GoStr) []
      hpred (by rfl)
  rw [NewQuoteFromCSV]
  simp only [hsplit, List.length_cons, List.drop_succ_cons, List.drop_zero]
  rw [htake]
  have hlen : ((Quote.bars q).map (csvLine p)).length = (Quote.bars q).length :=
    List.length_map _ _
  have hpad : ((Quote.bars q).map (csvLine p) ++ [[]]).length + 1 - 1 -
      ((Quote.bars q).map (csvLine p)).length = 1 := by
    simp
  rw [hpad]
  have hbs : ((Quote.bars q).map (csvLine p)).map
        (fun r => parseCSVBar (splitChar ',' r)) = Quote.bars q := by
    rw [List.map_map]
    refine List.map_congr_left ?_ |>.trans (List.map_id _)
    intro b hb
    exact hbar b hb
  rw [hbs, mkQuoteOfBars]
  simp only [List.replicate_one, List.map_append, List.map_cons, List.map_nil]
  rw [hpd, hpo, hph, hpl, hpc, hpv]
  rfl

/-- A concrete one-bar record (values from the repository's own test data). -/
def spyQ : Quote :=
  { Symbol := gs "spy"
    Precision := 0
    Date := [⟨2018, 7, 12, 0, 0, 0⟩]
    Open := [27828/100]
    High := [27943/100]
    Low := [2776/10]
    Close := [27395/100]
    Volume := [60124700] }

/-- C9 (amended): for every record with index-aligned sequences, valid
zero-second timestamps and values exact at the display precision, parsing its
own CSV output (same symbol) returns a nil error and a record whose bars are
the original bars in order followed by ONE extra all-zero bar — one more bar
than the original, not the same number: splitting the output on `"\n"` leaves
a trailing empty row, `NewQuoteFromCSV` allocates a bar for it, and the
six-field guard then leaves that bar zero. -/
theorem c9_csv_roundtrip_extra_bar (q : Quote) (hal : alignedQ q)
    (hdates : ∀ d ∈ q.Date, validDT d ∧ d.second = 0)
    (hopen : ∀ x ∈ q.Open, (x * 10 ^ getPrecision q.Symbol).den = 1)
    (hhigh : ∀ x ∈ q.High, (x * 10 ^ getPrecision q.Symbol).den = 1)
    (hlow : ∀ x ∈ q.Low, (x * 10 ^ getPrecision q.Symbol).den = 1)
    (hclose : ∀ x ∈ q.Close, (x * 10 ^ getPrecision q.Symbol).den = 1)
    (hvol : ∀ x ∈ q.Volume, (x * 10 ^ getPrecision q.Symbol).den = 1) :
    NewQuoteFromCSV q.Symbol (Quote.CSV q) =
      ({ Symbol := q.Symbol, Precision := 0, Date := q.Date ++ [zeroDateTime],
         Open := q.Open ++ [0], High := q.High ++ [0], Low := q.Low ++ [0],
         Close := q.Close ++ [0], Volume := q.Volume ++ [0] }, none) :=
  csv_roundtrip q hal hdates hopen hhigh hlow hclose hvol

theorem spyQ_aligned : alignedQ spyQ := by decide

theorem spyQ_dates : ∀ d ∈ spyQ.Date, validDT d ∧ d.second = 0 := by decide

theorem spyQ_open : ∀ x ∈ spyQ.Open, (x * 10 ^ getPrecision spyQ.Symbol).den = 1 := by
  intro x hx
  rcases List.mem_singleton.mp hx with rfl
  with_unfolding_all rfl

theorem spyQ_high : ∀ x ∈ spyQ.High, (x * 10 ^ getPrecision spyQ.Symbol).den = 1 := by
  intro x hx
  rcases List.mem_singleton.mp hx with rfl
  with_unfolding_all rfl

theorem spyQ_low : ∀ x ∈ spyQ.Low, (x * 10 ^ getPrecision spyQ.Symbol).den = 1 := by
  intro x hx
  rcases List.mem_singleton.mp hx with rfl
  with_unfolding_all rfl

theorem spyQ_close : ∀ x ∈ spyQ.Close, (x * 10 ^ getPrecision spyQ.Symbol).den = 1 := by
  intro x hx
  rcases List.mem_singleton.mp hx with rfl
  with_unfolding_all rfl

theorem spyQ_vol : ∀ x ∈ spyQ.Volume, (x * 10 ^ getPrecision spyQ.Symbol).den = 1 := by
  intro x hx
  rcases List.mem_singleton.mp hx with rfl
  with_unfolding_all rfl

/-- Witness for C9 (amended) on the concrete one-bar record. -/
theorem c9_csv_roundtrip_extra_bar_witness :
    (alignedQ spyQ ∧ (∀ d ∈ spyQ.Date, validDT d ∧ d.second = 0) ∧
      (∀ x ∈ spyQ.Open, (x * 10 ^ getPrecision spyQ.Symbol).den = 1) ∧
      (∀ x ∈ spyQ.High, (x * 10 ^ getPrecision spyQ.Symbol).den = 1) ∧
      (∀ x ∈ spyQ.Low, (x * 10 ^ getPrecision spyQ.Symbol).den = 1) ∧
      (∀ x ∈ spyQ.Close, (x * 10 ^ getPrecision spyQ.Symbol).den = 1) ∧
      (∀ x ∈ spyQ.Volume, (x * 10 ^ getPrecision spyQ.Symbol).den = 1)) ∧
    NewQuoteFromCSV spyQ.Symbol (Quote.CSV spyQ) =
      ({ Symbol := spyQ.Symbol, Precision := 0, Date := spyQ.Date ++ [zeroDateTime],
         Open := spyQ.Open ++ [0], High := spyQ.High ++ [0], Low := spyQ.Low ++ [0],
         Close := spyQ.Close ++ [0], Volume := spyQ.Volume ++ [0] }, none) :=
  ⟨⟨spyQ_aligned, spyQ_dates, spyQ_open, spyQ_high, spyQ_low, spyQ_close, spyQ_vol⟩,
    c9_csv_roundtrip_extra_bar spyQ spyQ_aligned spyQ_dates spyQ_open spyQ_high
      spyQ_low spyQ_close spyQ_vol⟩

/-- Counterexample to C9 as stated: the concrete one-bar record satisfies
every hypothesis of the claim, yet parsing its own CSV output yields a record
with a different (one larger) number of bars. -/
theorem c9_counterexample :
    (alignedQ spyQ ∧ (∀ d ∈ spyQ.Date, validDT d ∧ d.second = 0) ∧
      (∀ x ∈ spyQ.Open, (x * 10 ^ getPrecision spyQ.Symbol).den = 1) ∧
      (∀ x ∈ spyQ.High, (x * 10 ^ getPrecision spyQ.Symbol).den = 1) ∧
      (∀ x ∈ spyQ.Low, (x * 10 ^ getPrecision spyQ.Symbol).den = 1) ∧
      (∀ x ∈ spyQ.Close, (x * 10 ^ getPrecision spyQ.Symbol).den = 1) ∧
      (∀ x ∈ spyQ.Volume, (x * 10 ^ getPrecision spyQ.Symbol).den = 1)) ∧
    (NewQuoteFromCSV spyQ.Symbol (Quote.CSV spyQ)).1.Close.length ≠
      spyQ.Close.length := by
  refine ⟨⟨spyQ_aligned, spyQ_dates, spyQ_open, spyQ_high, spyQ_low, spyQ_close,
    spyQ_vol⟩, ?_⟩
  rw [csv_roundtrip spyQ spyQ_aligned spyQ_dates spyQ_open spyQ_high spyQ_low
    spyQ_close spyQ_vol]
  decide

theorem perm_pair {α : Type} {a b : α} {l : List α} (h : l.Perm [a, b]) :
    l = [a, b] ∨ l = [b, a] := by
  have hlen : l.length = 2 := by simpa using h.length_eq
  cases l with
  | nil => simp at hlen
  | cons x t =>
    cases t with
    | nil => simp at hlen
    | cons y t2 =>
      cases t2 with
      | cons z t3 => simp at hlen
      | nil =>
        have hx : x ∈ [a, b] := h.mem_iff.mp (List.mem_cons_self x [y])
        rcases List.mem_cons.mp hx with rfl | hx2
        · have hyb : [y].Perm [b] := h.cons_inv
          exact Or.inl (by rw [List.perm_singleton.mp hyb])
        · rcases List.mem_singleton.mp hx2 with rfl
          have hswap : List.Perm [a, x] [x, a] := List.Perm.swap x a []
          have hya : [y].Perm [a] := (h.trans hswap).cons_inv
          exact Or.inr (by rw [List.perm_singleton.mp hya])

/-- C5 fails on the code: for the one-record collection `[spyQ]`, the symbol
index built by `NewQuotesFromCSV` over the serializer's own output contains a
ghost empty-string key for the trailing newline's empty row, and under either
enumeration order of the map — hence under every order Go may choose — the
parser hits the empty row, whose comma-split has a single field, and reading
field index 1 is an out-of-range panic (`none`); no collection is returned at
all. -/
theorem c5_quotes_csv_parse_panics :
    indexKeys (Quotes.CSV [spyQ]) = [gs "spy", []] ∧
    NewQuotesFromCSV [gs "spy", []] (Quotes.CSV [spyQ]) = none ∧
    NewQuotesFromCSV [[], gs "spy"] (Quotes.CSV [spyQ]) = none ∧
    (∀ order : List GoStr, order.Perm (indexKeys (Quotes.CSV [spyQ])) →
      NewQuotesFromCSV order (Quotes.CSV [spyQ]) = none) := by
  have hkeys : indexKeys (Quotes.CSV [spyQ]) = [gs "spy", []] := by
    with_unfolding_all rfl
  have h1 : NewQuotesFromCSV [gs "spy", []] (Quotes.CSV [spyQ]) = none := by
    with_unfolding_all rfl
  have h2 : NewQuotesFromCSV [[], gs "spy"] (Quotes.CSV [spyQ]) = none := by
    with_unfolding_all rfl
  refine ⟨hkeys, h1, h2, fun order hperm => ?_⟩
  rw [hkeys] at hperm
  rcases perm_pair hperm with rfl | rfl
  · exact h1
  · exact h2

/-- Witness for C5's universally quantified component at a concrete
enumeration order. -/
theorem c5_quotes_csv_parse_panics_witness :
    ([[], gs "spy"] : List GoStr).Perm (indexKeys (Quotes.CSV [spyQ])) ∧
    NewQuotesFromCSV [[], gs "spy"] (Quotes.CSV [spyQ]) = none := by
  have hperm : ([[], gs "spy"] : List GoStr).Perm (indexKeys (Quotes.CSV [spyQ])) := by
    rw [c5_quotes_csv_parse_panics.1]
    exact List.Perm.swap (gs "spy") [] []
  exact ⟨hperm, c5_quotes_csv_parse_panics.2.2.2 [[], gs "spy"] hperm⟩
